import Mathlib

/- Shallow embedding of the ICNS container packer src/scripts/make_icns.py,
together with the Container Reader that the specification describes in
section 4.4 (the repository itself contains no reader). Bytes are modelled
as natural numbers below 256, byte strings as List Nat, and the filesystem
as an association list from path strings to file contents. -/

/-- A filesystem: an association list from absolute path to file bytes.
A path with no entry does not exist. -/
abbrev Fs := List (String × List Nat)

/-- Model of os.path.join(dir, filename) as the script uses it. -/
def pathJoin (dir fn : String) : String := dir ++ "/" ++ fn

/-- Model of os.path.exists: the path has an entry in the filesystem.
A zero-length file exists just like any other file. -/
def pathExists (fs : Fs) (p : String) : Bool := (fs.lookup p).isSome

/-- The tag bytes of the byte literal icp4. -/
def tagIcp4 : List Nat := [105, 99, 112, 52]

/-- The tag bytes of the byte literal icp5. -/
def tagIcp5 : List Nat := [105, 99, 112, 53]

/-- The fixed tag-to-filename table of make_icns.py lines 7-20, in source
order (Python dictionaries preserve insertion order): icp4, icp5, icp6,
ic07, ic08, ic09, ic10, ic11, ic12, ic13, ic14. -/
def types : List (List Nat × String) :=
  [ (tagIcp4, "icon_16x16.png"),
    (tagIcp5, "icon_32x32.png"),
    ([105, 99, 112, 54], "icon_64x64.png"),
    ([105, 99, 48, 55], "icon_128x128.png"),
    ([105, 99, 48, 56], "icon_256x256.png"),
    ([105, 99, 48, 57], "icon_512x512.png"),
    ([105, 99, 49, 48], "icon_1024x1024.png"),
    ([105, 99, 49, 49], "icon_16x16@2x.png"),
    ([105, 99, 49, 50], "icon_32x32@2x.png"),
    ([105, 99, 49, 51], "icon_128x128@2x.png"),
    ([105, 99, 49, 52], "icon_256x256@2x.png") ]

/-- Model of struct.pack for one big-endian unsigned 32-bit integer:
four bytes on success, none (struct.error, an uncaught exception in
make_icns.py) when the value does not fit in 32 bits. -/
def packBE32 (n : Nat) : Option (List Nat) :=
  if n < 4294967296 then
    some [n / 16777216 % 256, n / 65536 % 256, n / 256 % 256, n % 256]
  else none

/-- Big-endian value of the first four bytes of a byte string. -/
def readBE32 : List Nat → Nat
  | b0 :: b1 :: b2 :: b3 :: _ => ((b0 * 256 + b1) * 256 + b2) * 256 + b3
  | _ => 0

/-- Per-tag resolution of make_icns.py lines 24-33: build the canonical
path; when it does not exist apply the two hard-coded fallback assignments
of lines 27-28; finally, when a file exists at the resulting path, read
and return its bytes, otherwise report the tag as missing (none). -/
def resolveTag (fs : Fs) (dir : String) (tag : List Nat) (fn : String) :
    Option (List Nat) :=
  let path := pathJoin dir fn
  let path :=
    if pathExists fs path then path
    else
      let path := if tag = tagIcp4 then pathJoin dir "icon_16x16.png" else path
      if tag = tagIcp5 then pathJoin dir "icon_32x32.png" else path
  if pathExists fs path then fs.lookup path else none

/-- Block encoding of make_icns.py lines 34-36: the 4 tag bytes, the
4-byte big-endian block size counting the 8 header bytes, then the
payload bytes verbatim. -/
def encodeBlock (tag img : List Nat) : Option (List Nat) :=
  (packBE32 (img.length + 8)).map fun sz => tag ++ sz ++ img

/-- The resolution and encoding loop of make_icns.py lines 22-38 over a
tag-to-filename table: returns the filenames warned about as missing and,
unless struct.pack failed (none), the encoded blocks in table order. -/
def collectBlocksAux (fs : Fs) (dir : String) :
    List (List Nat × String) → List String × Option (List (List Nat))
  | [] => ([], some [])
  | e :: rest =>
    match resolveTag fs dir e.1 e.2 with
    | some img =>
      match encodeBlock e.1 img with
      | some b =>
        let p := collectBlocksAux fs dir rest
        (p.1, p.2.map fun bs => b :: bs)
      | none => ([], none)
    | none =>
      let p := collectBlocksAux fs dir rest
      (e.2 :: p.1, p.2)

/-- Filesystem write operations the packer can perform during its write
phase (make_icns.py lines 46-49). A rename operation is part of the
vocabulary so that its absence from every trace is expressible. -/
inductive FsOp where
  | openWrite (path : String)
  | write (bytes : List Nat)
  | rename (src dst : String)
deriving DecidableEq

/-- Whether the operation is a rename. -/
def FsOp.isRename : FsOp → Bool
  | FsOp.rename _ _ => true
  | _ => false

/-- True when the operation is not an open-for-write, or opens exactly p. -/
def FsOp.opensOnlyAt : FsOp → String → Bool
  | FsOp.openWrite q, p => q == p
  | _, _ => true

/-- Outcome of one run of create_icns: the error exit of line 42, an
uncaught struct.error, or success with the bytes written to the output. -/
inductive PackResult where
  | noEntries
  | packOverflow
  | success (bytes : List Nat)
deriving DecidableEq

/-- Process exit code: 0 on success, 1 on the explicit error exit of
line 42 and on an uncaught exception. -/
def PackResult.exitCode : PackResult → Nat
  | PackResult.success _ => 0
  | _ => 1

/-- One run of the packer: warned-missing filenames in order, the outcome,
and the write operations performed on the filesystem. -/
structure PackRun where
  warnings : List String
  result : PackResult
  trace : List FsOp
deriving DecidableEq

/-- The magic bytes of the byte literal icns. -/
def magic : List Nat := [105, 99, 110, 115]

/-- create_icns(iconset_dir, output_file) of make_icns.py lines 5-51:
resolve and encode the blocks in table order; with no blocks, print the
error and exit 1 before touching the filesystem (lines 40-42); otherwise
open the output path directly for writing (truncating it), write the
8-byte header, then each block (lines 44-49). When packing the total size
raises, the output has already been opened and truncated. -/
def createIcns (fs : Fs) (dir out : String) : PackRun :=
  match collectBlocksAux fs dir types with
  | (ws, none) => ⟨ws, PackResult.packOverflow, []⟩
  | (ws, some blocks) =>
    if blocks.isEmpty then ⟨ws, PackResult.noEntries, []⟩
    else
      match packBE32 ((blocks.map List.length).sum + 8) with
      | none => ⟨ws, PackResult.packOverflow, [FsOp.openWrite out]⟩
      | some t =>
        ⟨ws, PackResult.success (magic ++ t ++ blocks.flatten),
          FsOp.openWrite out :: FsOp.write (magic ++ t) ::
            blocks.map FsOp.write⟩

/-- Block Encoder applied to an explicit ordered (tag, payload) list,
with the byte layout of make_icns.py line 36. -/
def encodeBlocks : List (List Nat × List Nat) → Option (List (List Nat))
  | [] => some []
  | e :: rest =>
    match encodeBlock e.1 e.2, encodeBlocks rest with
    | some b, some bs => some (b :: bs)
    | _, _ => none

/-- Container serialization of make_icns.py lines 44-49 applied to the
blocks of an explicit entry list: magic, big-endian total size counting
the 8 header bytes, then the blocks in order. -/
def encodeContainer (entries : List (List Nat × List Nat)) :
    Option (List Nat) :=
  match encodeBlocks entries with
  | none => none
  | some blocks =>
    match packBE32 ((blocks.map List.length).sum + 8) with
    | none => none
    | some t => some (magic ++ t ++ blocks.flatten)

/-- Modelled from the spec: the repository has no Container Reader; this
is the error taxonomy of specification section 4.4. -/
inductive ParseErr where
  | badMagic
  | truncated
  | malformedBlock
  | duplicateTag
  | sizeMismatch
deriving DecidableEq

/-- Modelled from the spec: the Block state of the reader of section 4.4.
Repeatedly read a 4-byte tag and a 4-byte big-endian length; check that
the length is at least 8 and that the payload fits in the remaining
bytes, and reject duplicate tags; stop at the end of the body. The fuel
argument bounds the recursion and is never exhausted when the reader
starts it at the stream length, because every block consumes at least
8 bytes. -/
def parseBlocks : Nat → List (List Nat) → List Nat →
    Except ParseErr (List (List Nat × List Nat))
  | _, _, [] => Except.ok []
  | 0, _, _ :: _ => Except.error ParseErr.malformedBlock
  | fuel + 1, seen, b0 :: body =>
    let bs := b0 :: body
    if bs.length < 8 then Except.error ParseErr.malformedBlock
    else
      let tag := bs.take 4
      let len := readBE32 (bs.drop 4)
      if len < 8 then Except.error ParseErr.malformedBlock
      else if bs.length < len then Except.error ParseErr.malformedBlock
      else if tag ∈ seen then Except.error ParseErr.duplicateTag
      else
        match parseBlocks fuel (tag :: seen) (bs.drop len) with
        | Except.ok rest =>
            Except.ok ((tag, (bs.drop 8).take (len - 8)) :: rest)
        | Except.error e => Except.error e

/-- Modelled from the spec: the Container Reader of section 4.4. Check
the magic, read the big-endian total length, require the stream to hold
exactly that many bytes (shorter is truncated, longer leaves bytes after
the last block), then parse the blocks of the body. -/
def parseContainer (stream : List Nat) :
    Except ParseErr (List (List Nat × List Nat)) :=
  if stream.take 4 ≠ magic then Except.error ParseErr.badMagic
  else if stream.length < 8 then Except.error ParseErr.truncated
  else
    let total := readBE32 (stream.drop 4)
    if stream.length < total then Except.error ParseErr.truncated
    else if total < stream.length then Except.error ParseErr.sizeMismatch
    else parseBlocks stream.length [] (stream.drop 8)

/-- Resolver stated from the words of claim C10: identical to resolveTag
except that the fallback logic of lines 26-29 is removed. -/
def resolveTagNoFallback (fs : Fs) (dir : String) (tag : List Nat)
    (fn : String) : Option (List Nat) :=
  let path := pathJoin dir fn
  if pathExists fs path then fs.lookup path else none

/-- Ordered resolved entries of the source resolver over the fixed table. -/
def resolvedEntries (fs : Fs) (dir : String) : List (List Nat × List Nat) :=
  types.filterMap fun e =>
    (resolveTag fs dir e.1 e.2).map fun img => (e.1, img)

/-- Ordered resolved entries of the no-fallback resolver over the table. -/
def resolvedEntriesNoFallback (fs : Fs) (dir : String) :
    List (List Nat × List Nat) :=
  types.filterMap fun e =>
    (resolveTagNoFallback fs dir e.1 e.2).map fun img => (e.1, img)

/-- Taking as many bytes as the left part of an append returns it. -/
theorem take_len_append (l r : List Nat) : (l ++ r).take l.length = l := by
  induction l with
  | nil => rfl
  | cons a l ih => simp [ih]

/-- Dropping as many bytes as the left part of an append removes it. -/
theorem drop_len_append (l r : List Nat) : (l ++ r).drop l.length = r := by
  induction l with
  | nil => rfl
  | cons a l ih => simp [ih]

/-- Variant of take_len_append with the length given as a numeral. -/
theorem take_append_of_len (l r : List Nat) (n : Nat) (h : l.length = n) :
    (l ++ r).take n = l := by
  subst h; exact take_len_append l r

/-- Variant of drop_len_append with the length given as a numeral. -/
theorem drop_append_of_len (l r : List Nat) (n : Nat) (h : l.length = n) :
    (l ++ r).drop n = r := by
  subst h; exact drop_len_append l r

/-- The length of flattened blocks is the sum of the block lengths. -/
theorem flatten_len (bs : List (List Nat)) :
    bs.flatten.length = (bs.map List.length).sum := by
  induction bs with
  | nil => rfl
  | cons b bs ih => simp [ih]

/-- Mapping two pointwise-agreeing functions gives the same list. -/
theorem map_congr_mem {α β : Type} (l : List α) (f g : α → β)
    (h : ∀ a ∈ l, f a = g a) : l.map f = l.map g := by
  induction l with
  | nil => rfl
  | cons a l ih =>
    simp only [List.map_cons]
    rw [h a (by simp), ih (fun x hx => h x (by simp [hx]))]

/-- Filter-mapping two pointwise-agreeing functions gives the same list. -/
theorem filterMap_congr_mem {α β : Type} (l : List α) (f g : α → Option β)
    (h : ∀ a ∈ l, f a = g a) : l.filterMap f = l.filterMap g := by
  induction l with
  | nil => rfl
  | cons a l ih =>
    simp only [List.filterMap_cons]
    rw [h a (by simp), ih (fun x hx => h x (by simp [hx]))]

/-- Inversion of a successful 32-bit pack: the value fits, the field is
four bytes, and reading it back in front of any suffix recovers it. -/
theorem packBE32_eq (n : Nat) (l : List Nat) (h : packBE32 n = some l) :
    n < 4294967296 ∧ l.length = 4 ∧ ∀ r, readBE32 (l ++ r) = n := by
  unfold packBE32 at h
  split at h
  · next hn =>
    injection h with h2
    subst h2
    refine ⟨hn, rfl, ?_⟩
    intro r
    simp only [List.cons_append, List.nil_append, readBE32]
    omega
  · exact absurd h (by simp)

/-- Inversion of a successful block encoding: the size field packed and
the block laid out as tag, size, payload. -/
theorem encodeBlock_eq (tag img b : List Nat) (h : encodeBlock tag img = some b) :
    ∃ sz, packBE32 (img.length + 8) = some sz ∧ b = tag ++ sz ++ img := by
  unfold encodeBlock at h
  rcases Option.map_eq_some'.mp h with ⟨sz, hsz, hb⟩
  exact ⟨sz, hsz, hb.symm⟩

/-- Every block the collection loop emits is a 4-byte tag, a packed size
field for the payload length plus 8, and the payload. -/
theorem collectBlocksAux_shape (fs : Fs) (dir : String)
    (table : List (List Nat × String)) :
    ∀ ws blocks, (∀ e ∈ table, (Prod.fst e).length = 4) →
    collectBlocksAux fs dir table = (ws, some blocks) →
    ∀ b ∈ blocks, ∃ t sz img, b = t ++ sz ++ img ∧ t.length = 4 ∧
      packBE32 (img.length + 8) = some sz := by
  induction table with
  | nil =>
    intro ws blocks h4 h b hb
    simp only [collectBlocksAux, Prod.mk.injEq, Option.some.injEq] at h
    obtain ⟨-, hbl⟩ := h
    subst hbl
    exact absurd hb (List.not_mem_nil b)
  | cons e rest ih =>
    intro ws blocks h4 h b hb
    simp only [collectBlocksAux] at h
    split at h
    · next img hr =>
      split at h
      · next bb he =>
        rcases hp : collectBlocksAux fs dir rest with ⟨ws2, obs⟩
        rw [hp] at h
        dsimp only at h
        simp only [Prod.mk.injEq] at h
        obtain ⟨-, hm⟩ := h
        obtain ⟨bs, hobs, hblocks⟩ := Option.map_eq_some'.mp hm
        subst hblocks
        rcases List.mem_cons.mp hb with hbb | hbs
        · subst hbb
          obtain ⟨sz, hsz, hlay⟩ := encodeBlock_eq e.1 img b he
          exact ⟨e.1, sz, img, hlay, h4 e (List.mem_cons_self e rest), hsz⟩
        · rw [hobs] at hp
          exact ih ws2 bs (fun x hx => h4 x (List.mem_cons_of_mem e hx)) hp b hbs
      · simp at h
    · next hr =>
      rcases hp : collectBlocksAux fs dir rest with ⟨ws2, obs⟩
      rw [hp] at h
      dsimp only at h
      simp only [Prod.mk.injEq] at h
      obtain ⟨-, hobs⟩ := h
      rw [hobs] at hp
      exact ih ws2 blocks (fun x hx => h4 x (List.mem_cons_of_mem e hx)) hp b hb

/-- The tags of the emitted blocks are exactly the first components of
the table entries whose tag resolved, in table order. -/
theorem collectBlocksAux_tags (fs : Fs) (dir : String)
    (table : List (List Nat × String)) :
    ∀ ws blocks, (∀ e ∈ table, (Prod.fst e).length = 4) →
    collectBlocksAux fs dir table = (ws, some blocks) →
    blocks.map (fun b => b.take 4) =
      (table.filter fun e => (resolveTag fs dir e.1 e.2).isSome).map
        Prod.fst := by
  induction table with
  | nil =>
    intro ws blocks h4 h
    simp only [collectBlocksAux, Prod.mk.injEq, Option.some.injEq] at h
    obtain ⟨-, hbl⟩ := h
    subst hbl
    rfl
  | cons e rest ih =>
    intro ws blocks h4 h
    simp only [collectBlocksAux] at h
    split at h
    · next img hr =>
      split at h
      · next bb he =>
        rcases hp : collectBlocksAux fs dir rest with ⟨ws2, obs⟩
        rw [hp] at h
        dsimp only at h
        simp only [Prod.mk.injEq] at h
        obtain ⟨-, hm⟩ := h
        obtain ⟨bs, hobs, hblocks⟩ := Option.map_eq_some'.mp hm
        subst hblocks
        rw [hobs] at hp
        rw [List.filter_cons_of_pos (by simp [hr])]
        obtain ⟨sz, hsz, hlay⟩ := encodeBlock_eq e.1 img bb he
        simp only [List.map_cons]
        rw [ih ws2 bs (fun x hx => h4 x (List.mem_cons_of_mem e hx)) hp]
        rw [hlay, List.append_assoc,
          take_append_of_len e.1 (sz ++ img) 4 (h4 e (List.mem_cons_self e rest))]
      · simp at h
    · next hr =>
      rcases hp : collectBlocksAux fs dir rest with ⟨ws2, obs⟩
      rw [hp] at h
      dsimp only at h
      simp only [Prod.mk.injEq] at h
      obtain ⟨-, hobs⟩ := h
      rw [hobs] at hp
      rw [List.filter_cons_of_neg (by simp [hr])]
      exact ih ws2 blocks (fun x hx => h4 x (List.mem_cons_of_mem e hx)) hp

/-- A directory with no files under it resolves nothing, regardless of
the tag or filename. -/
theorem resolveTag_eq_none (fs : Fs) (dir : String) (tag : List Nat)
    (fn : String) (h : ∀ s : String, fs.lookup (pathJoin dir s) = none) :
    resolveTag fs dir tag fn = none := by
  unfold resolveTag
  by_cases h4 : tag = tagIcp4
  · simp [pathExists, h, h4, tagIcp4, tagIcp5]
  · by_cases h5 : tag = tagIcp5
    · simp [pathExists, h, h5, tagIcp4, tagIcp5]
    · simp [pathExists, h, h4, h5]

/-- When every tag of the table fails to resolve, the loop warns about
each filename in order and emits no block. -/
theorem collectBlocksAux_all_missing (fs : Fs) (dir : String)
    (table : List (List Nat × String))
    (h : ∀ e ∈ table, resolveTag fs dir e.1 e.2 = none) :
    collectBlocksAux fs dir table = (table.map Prod.snd, some []) := by
  induction table with
  | nil => rfl
  | cons e rest ih =>
    simp only [collectBlocksAux]
    rw [h e (List.mem_cons_self e rest)]
    rw [ih (fun x hx => h x (List.mem_cons_of_mem e hx))]
    rfl

/-- Unfolding of the reader's block state on a non-empty body. -/
theorem parseBlocks_ne_nil (fuel : Nat) (seen : List (List Nat))
    (body : List Nat) (h : body ≠ []) :
    parseBlocks (fuel + 1) seen body =
      (if body.length < 8 then Except.error ParseErr.malformedBlock
       else if readBE32 (body.drop 4) < 8 then
         Except.error ParseErr.malformedBlock
       else if body.length < readBE32 (body.drop 4) then
         Except.error ParseErr.malformedBlock
       else if body.take 4 ∈ seen then Except.error ParseErr.duplicateTag
       else
         match parseBlocks fuel (body.take 4 :: seen)
             (body.drop (readBE32 (body.drop 4))) with
         | Except.ok rest =>
             Except.ok ((body.take 4,
               (body.drop 8).take (readBE32 (body.drop 4) - 8)) :: rest)
         | Except.error e => Except.error e) := by
  cases body with
  | nil => exact absurd rfl h
  | cons b0 rest => rfl

/-- Parsing the concatenation of successfully encoded blocks recovers the
entries, for any accumulator of already-seen tags disjoint from them and
any sufficient fuel. -/
theorem parseBlocks_of_encodeBlocks (entries : List (List Nat × List Nat)) :
    ∀ (blocks : List (List Nat)) (seen : List (List Nat)) (fuel : Nat),
    encodeBlocks entries = some blocks →
    (∀ e ∈ entries, (Prod.fst e).length = 4) →
    (entries.map Prod.fst).Nodup →
    (∀ e ∈ entries, Prod.fst e ∉ seen) →
    blocks.flatten.length ≤ fuel →
    parseBlocks fuel seen blocks.flatten = Except.ok entries := by
  induction entries with
  | nil =>
    intro blocks seen fuel henc h4 hnd hseen hfuel
    simp only [encodeBlocks, Option.some.injEq] at henc
    subst henc
    simp [parseBlocks]
  | cons hd tl ih =>
    intro blocks seen fuel henc h4 hnd hseen hfuel
    simp only [encodeBlocks] at henc
    split at henc
    · next b bs hb htl =>
      simp only [Option.some.injEq] at henc
      subst henc
      obtain ⟨sz, hsz, hblay⟩ := encodeBlock_eq hd.1 hd.2 b hb
      obtain ⟨-, hszlen, hread⟩ := packBE32_eq (hd.2.length + 8) sz hsz
      have h1len : hd.1.length = 4 := h4 hd (List.mem_cons_self hd tl)
      have hflat : (b :: bs).flatten = b ++ bs.flatten := rfl
      have hblen : b.length = hd.2.length + 8 := by
        rw [hblay]; simp [h1len, hszlen]; omega
      have hlen : (b ++ bs.flatten).length =
          hd.2.length + 8 + bs.flatten.length := by
        simp [hblen]
      have hassoc : b ++ bs.flatten = hd.1 ++ ((sz ++ hd.2) ++ bs.flatten) := by
        rw [hblay]; simp [List.append_assoc]
      have htake : (b ++ bs.flatten).take 4 = hd.1 := by
        rw [hassoc]; exact take_append_of_len _ _ 4 h1len
      have hread4 : readBE32 ((b ++ bs.flatten).drop 4) = hd.2.length + 8 := by
        rw [hassoc, drop_append_of_len _ _ 4 h1len, List.append_assoc]
        exact hread (hd.2 ++ bs.flatten)
      have hdrop8 : (b ++ bs.flatten).drop 8 = hd.2 ++ bs.flatten := by
        have : b ++ bs.flatten = (hd.1 ++ sz) ++ (hd.2 ++ bs.flatten) := by
          rw [hblay]; simp [List.append_assoc]
        rw [this]
        exact drop_append_of_len _ _ 8 (by simp [h1len, hszlen])
      have hdroplen : (b ++ bs.flatten).drop (hd.2.length + 8) = bs.flatten :=
        drop_append_of_len b (bs.flatten) (hd.2.length + 8) hblen
      have hne : b ++ bs.flatten ≠ [] := by
        intro hnil
        rw [hnil] at hlen
        simp at hlen
        omega
      obtain ⟨f, rfl⟩ : ∃ f, fuel = f + 1 := by
        rw [hflat] at hfuel
        cases fuel with
        | zero => rw [hlen] at hfuel; omega
        | succ f => exact ⟨f, rfl⟩
      rw [hflat, parseBlocks_ne_nil f seen (b ++ bs.flatten) hne]
      rw [htake, hread4, hdrop8, hdroplen]
      rw [if_neg (by omega), if_neg (by omega), if_neg (by omega),
        if_neg (hseen hd (List.mem_cons_self hd tl))]
      simp only [List.map_cons, List.nodup_cons] at hnd
      have hrec : parseBlocks f (hd.1 :: seen) bs.flatten = Except.ok tl := by
        refine ih bs (hd.1 :: seen) f htl
          (fun x hx => h4 x (List.mem_cons_of_mem hd hx)) hnd.2 ?_ ?_
        · intro x hx
          simp only [List.mem_cons]
          push_neg
          constructor
          · intro hxeq
            exact hnd.1 (hxeq ▸ List.mem_map_of_mem Prod.fst hx)
          · exact hseen x (List.mem_cons_of_mem hd hx)
        · rw [hflat, hlen] at hfuel
          omega
      rw [hrec]
      have hpay : (hd.2 ++ bs.flatten).take (hd.2.length + 8 - 8) = hd.2 := by
        rw [Nat.add_sub_cancel]
        exact take_len_append hd.2 (bs.flatten)
      rw [hpay]
    · next hne1 =>
      simp at henc

/-- Claim C3: encoding any non-empty ordered list of (tag, payload) pairs
with unique tags and non-empty payloads into a container and then decoding
that container with the Container Reader reproduces exactly the same
ordered list. -/
theorem encode_decode_round_trip (entries : List (List Nat × List Nat))
    (bytes : List Nat)
    (hne : entries ≠ [])
    (h4 : ∀ e ∈ entries, (Prod.fst e).length = 4)
    (hpay : ∀ e ∈ entries, Prod.snd e ≠ [])
    (hnd : (entries.map Prod.fst).Nodup)
    (henc : encodeContainer entries = some bytes) :
    parseContainer bytes = Except.ok entries := by
  unfold encodeContainer at henc
  rcases hb : encodeBlocks entries with _ | blocks
  · rw [hb] at henc
    simp at henc
  · rw [hb] at henc
    dsimp only at henc
    rcases ht : packBE32 ((blocks.map List.length).sum + 8) with _ | t
    · rw [ht] at henc
      simp at henc
    · rw [ht] at henc
      simp only [Option.some.injEq] at henc
      subst henc
      obtain ⟨hlt, htlen, htread⟩ :=
        packBE32_eq ((blocks.map List.length).sum + 8) t ht
      have hflatlen : blocks.flatten.length = (blocks.map List.length).sum :=
        flatten_len blocks
      have hmt8 : (magic ++ t).length = 8 := by simp [magic, htlen]
      have hstream : (magic ++ t ++ blocks.flatten).length =
          8 + blocks.flatten.length := by
        simp only [List.length_append]
        simp [magic, htlen]
      have htk : (magic ++ t ++ blocks.flatten).take 4 = magic := by
        rw [List.append_assoc]
        exact take_append_of_len magic (t ++ blocks.flatten) 4 rfl
      have hdr4 : (magic ++ t ++ blocks.flatten).drop 4 =
          t ++ blocks.flatten := by
        rw [List.append_assoc]
        exact drop_append_of_len magic (t ++ blocks.flatten) 4 rfl
      have hdr8 : (magic ++ t ++ blocks.flatten).drop 8 = blocks.flatten :=
        drop_append_of_len (magic ++ t) (blocks.flatten) 8 hmt8
      unfold parseContainer
      rw [htk, if_neg (by simp)]
      rw [if_neg (by omega)]
      rw [hdr4, htread (blocks.flatten)]
      rw [if_neg (by omega), if_neg (by omega)]
      rw [hdr8]
      exact parseBlocks_of_encodeBlocks entries blocks []
        (magic ++ t ++ blocks.flatten).length hb h4 hnd
        (fun e he => List.not_mem_nil (Prod.fst e)) (by omega)

/-- Witness for claim C3 at a concrete two-entry list. -/
theorem encode_decode_round_trip_witness :
    encodeContainer [([105, 99, 112, 52], [1]), ([105, 99, 112, 53], [2, 3])] =
      some [105, 99, 110, 115, 0, 0, 0, 27, 105, 99, 112, 52, 0, 0, 0, 9, 1,
        105, 99, 112, 53, 0, 0, 0, 10, 2, 3] ∧
    parseContainer [105, 99, 110, 115, 0, 0, 0, 27, 105, 99, 112, 52, 0, 0,
        0, 9, 1, 105, 99, 112, 53, 0, 0, 0, 10, 2, 3] =
      Except.ok [([105, 99, 112, 52], [1]), ([105, 99, 112, 53], [2, 3])] := by
  constructor
  · rfl
  · exact encode_decode_round_trip
      [([105, 99, 112, 52], [1]), ([105, 99, 112, 53], [2, 3])]
      [105, 99, 110, 115, 0, 0, 0, 27, 105, 99, 112, 52, 0, 0, 0, 9, 1,
        105, 99, 112, 53, 0, 0, 0, 10, 2, 3]
      (by decide) (by decide) (by decide) (by decide) rfl

/-- Claim C1: for every block the packer emits, the 4-byte big-endian
length field of the block equals the length of the block's payload in
bytes plus 8 (the 4-byte tag plus the 4-byte length field). -/
theorem block_length_field_eq_payload_plus_eight (fs : Fs) (dir : String)
    (ws : List String) (blocks : List (List Nat)) (b : List Nat)
    (h : collectBlocksAux fs dir types = (ws, some blocks)) (hb : b ∈ blocks) :
    readBE32 (b.drop 4) = (b.drop 8).length + 8 := by
  obtain ⟨t, sz, img, hlay, htlen, hsz⟩ :=
    collectBlocksAux_shape fs dir types ws blocks (by decide) h b hb
  obtain ⟨-, hszlen, hread⟩ := packBE32_eq (img.length + 8) sz hsz
  have hd4 : b.drop 4 = sz ++ img := by
    rw [hlay, List.append_assoc]
    exact drop_append_of_len t (sz ++ img) 4 htlen
  have hd8 : b.drop 8 = img := by
    rw [hlay]
    exact drop_append_of_len (t ++ sz) img 8 (by simp [htlen, hszlen])
  rw [hd4, hd8, hread img]

/-- Witness for claim C1: the block packed from a 3-byte file has length
field 11, which is its payload length 3 plus 8. -/
theorem block_length_field_witness :
    readBE32 (([105, 99, 112, 52, 0, 0, 0, 11, 1, 2, 3] : List Nat).drop 4) =
      (([105, 99, 112, 52, 0, 0, 0, 11, 1, 2, 3] : List Nat).drop 8).length
        + 8 := by
  exact block_length_field_eq_payload_plus_eight
    [("d/icon_16x16.png", [1, 2, 3])] "d"
    ["icon_32x32.png", "icon_64x64.png", "icon_128x128.png",
     "icon_256x256.png", "icon_512x512.png", "icon_1024x1024.png",
     "icon_16x16@2x.png", "icon_32x32@2x.png", "icon_128x128@2x.png",
     "icon_256x256@2x.png"]
    [[105, 99, 112, 52, 0, 0, 0, 11, 1, 2, 3]]
    [105, 99, 112, 52, 0, 0, 0, 11, 1, 2, 3]
    rfl (by decide)

/-- Counterexample to claim C2: on the specification's own concrete
scenario (one 10-byte icon_16x16.png), the total_length field reads 26
while the file is 26 bytes long, so the field equals the file length
itself and not the file length minus 8. -/
theorem total_length_not_file_length_minus_eight :
    (createIcns [("d/icon_16x16.png", [1, 2, 3, 4, 5, 6, 7, 8, 9, 10])]
        "d" "o").result =
      PackResult.success [105, 99, 110, 115, 0, 0, 0, 26, 105, 99, 112, 52,
        0, 0, 0, 18, 1, 2, 3, 4, 5, 6, 7, 8, 9, 10] ∧
    readBE32 (([105, 99, 110, 115, 0, 0, 0, 26, 105, 99, 112, 52,
        0, 0, 0, 18, 1, 2, 3, 4, 5, 6, 7, 8, 9, 10] : List Nat).drop 4) ≠
      ([105, 99, 110, 115, 0, 0, 0, 26, 105, 99, 112, 52,
        0, 0, 0, 18, 1, 2, 3, 4, 5, 6, 7, 8, 9, 10] : List Nat).length - 8 := by
  exact ⟨rfl, by decide⟩

/-- Claim C2 as amended: for every container the packer successfully
writes, the total_length field in the header equals the sum of the length
fields of all contained blocks plus 8, and that value equals the total
byte length of the output file itself (not the file length minus 8). -/
theorem total_length_eq_sum_plus_eight_eq_file_length (fs : Fs)
    (dir out : String) (bytes : List Nat)
    (h : (createIcns fs dir out).result = PackResult.success bytes) :
    ∃ ws blocks t,
      collectBlocksAux fs dir types = (ws, some blocks) ∧
      bytes = magic ++ t ++ blocks.flatten ∧
      readBE32 (bytes.drop 4) =
        (blocks.map fun b => readBE32 (b.drop 4)).sum + 8 ∧
      readBE32 (bytes.drop 4) = bytes.length := by
  unfold createIcns at h
  rcases hc : collectBlocksAux fs dir types with ⟨ws, obs⟩
  rw [hc] at h
  cases obs with
  | none => simp at h
  | some blocks =>
    dsimp only at h
    by_cases hemp : blocks.isEmpty
    · rw [if_pos hemp] at h
      simp at h
    · rw [if_neg hemp] at h
      rcases hp : packBE32 ((blocks.map List.length).sum + 8) with _ | t
      · rw [hp] at h
        simp at h
      · rw [hp] at h
        dsimp only at h
        obtain hbytes := (PackResult.success.injEq _ _).mp h
        subst hbytes
        obtain ⟨hlt, htlen, htread⟩ :=
          packBE32_eq ((blocks.map List.length).sum + 8) t hp
        have hfield : ∀ b ∈ blocks, readBE32 (b.drop 4) = b.length := by
          intro b hb
          obtain ⟨tt, sz, img, hlay, httlen, hsz⟩ :=
            collectBlocksAux_shape fs dir types ws blocks (by decide) hc b hb
          obtain ⟨-, hszlen, hread⟩ := packBE32_eq (img.length + 8) sz hsz
          have hd4 : b.drop 4 = sz ++ img := by
            rw [hlay, List.append_assoc]
            exact drop_append_of_len tt (sz ++ img) 4 httlen
          rw [hd4, hread img, hlay]
          simp [httlen, hszlen]
          omega
        have hmapeq : (blocks.map fun b => readBE32 (b.drop 4)) =
            blocks.map List.length :=
          map_congr_mem blocks _ _ (fun b hb => hfield b hb)
        have hdrop4 : (magic ++ t ++ blocks.flatten).drop 4 =
            t ++ blocks.flatten := by
          rw [List.append_assoc]
          exact drop_append_of_len magic (t ++ blocks.flatten) 4 rfl
        refine ⟨ws, blocks, t, rfl, rfl, ?_, ?_⟩
        · rw [hdrop4, htread (blocks.flatten), hmapeq]
        · rw [hdrop4, htread (blocks.flatten)]
          have hflatlen : blocks.flatten.length =
              (blocks.map List.length).sum := flatten_len blocks
          simp only [List.length_append]
          simp [magic, htlen, hflatlen]
          omega

/-- Witness for the amended claim C2 at a concrete one-file run. -/
theorem total_length_witness :
    ∃ ws blocks t,
      collectBlocksAux [("d/icon_16x16.png", [1, 2, 3])] "d" types =
        (ws, some blocks) ∧
      ([105, 99, 110, 115, 0, 0, 0, 19, 105, 99, 112, 52, 0, 0, 0, 11,
         1, 2, 3] : List Nat) = magic ++ t ++ blocks.flatten ∧
      readBE32 (([105, 99, 110, 115, 0, 0, 0, 19, 105, 99, 112, 52, 0, 0,
          0, 11, 1, 2, 3] : List Nat).drop 4) =
        (blocks.map fun b => readBE32 (b.drop 4)).sum + 8 ∧
      readBE32 (([105, 99, 110, 115, 0, 0, 0, 19, 105, 99, 112, 52, 0, 0,
          0, 11, 1, 2, 3] : List Nat).drop 4) =
        ([105, 99, 110, 115, 0, 0, 0, 19, 105, 99, 112, 52, 0, 0, 0, 11,
          1, 2, 3] : List Nat).length := by
  exact total_length_eq_sum_plus_eight_eq_file_length
    [("d/icon_16x16.png", [1, 2, 3])] "d" "o"
    [105, 99, 110, 115, 0, 0, 0, 19, 105, 99, 112, 52, 0, 0, 0, 11, 1, 2, 3]
    rfl

/-- Counterexample to claim C4: on a concrete successful run the write
trace opens the final output path directly and contains no rename at all,
so no temporary file and no atomic rename onto the final path occur. -/
theorem writer_no_rename_counterexample :
    (createIcns [("d/icon_16x16.png", [1, 2, 3])] "d" "out.icns").trace =
      [FsOp.openWrite "out.icns",
       FsOp.write [105, 99, 110, 115, 0, 0, 0, 19],
       FsOp.write [105, 99, 112, 52, 0, 0, 0, 11, 1, 2, 3]] ∧
    ((createIcns [("d/icon_16x16.png", [1, 2, 3])] "d" "out.icns").trace.all
      fun op => !FsOp.isRename op) = true := by
  exact ⟨rfl, rfl⟩

/-- Claim C4 as amended: the Container Writer opens the final output path
itself for writing (truncating it) and writes the header and blocks to it
directly; its trace never contains a rename and never opens any path other
than the output path. -/
theorem writer_writes_output_directly (fs : Fs) (dir out : String) :
    ((createIcns fs dir out).trace.all
      fun op => !FsOp.isRename op && FsOp.opensOnlyAt op out) = true := by
  unfold createIcns
  rcases collectBlocksAux fs dir types with ⟨ws, obs⟩
  cases obs with
  | none => rfl
  | some blocks =>
    dsimp only
    by_cases hemp : blocks.isEmpty
    · rw [if_pos hemp]
      rfl
    · rw [if_neg hemp]
      rcases packBE32 ((blocks.map List.length).sum + 8) with _ | t
      · simp [FsOp.isRename, FsOp.opensOnlyAt]
      · refine List.all_eq_true.mpr ?_
        intro op hop
        rcases List.mem_cons.mp hop with rfl | hop2
        · simp [FsOp.isRename, FsOp.opensOnlyAt]
        · rcases List.mem_cons.mp hop2 with rfl | hop3
          · rfl
          · obtain ⟨b, -, rfl⟩ := List.mem_map.mp hop3
            rfl

/-- Counterexample to claim C5: a directory whose only file is a
zero-length icon_16x16.png packs successfully into a container holding
one block with length field 8 and empty payload; the zero-length file is
neither treated as not-found nor rejected as an encoding error. -/
theorem zero_length_file_packed_counterexample :
    (createIcns [("d/icon_16x16.png", [])] "d" "o").result =
      PackResult.success [105, 99, 110, 115, 0, 0, 0, 16,
        105, 99, 112, 52, 0, 0, 0, 8] ∧
    ((createIcns [("d/icon_16x16.png", [])] "d" "o").result).exitCode
      = 0 := by
  exact ⟨rfl, rfl⟩

/-- Claim C5 as amended: a candidate file that exists but is zero-length
is treated as found: the resolver selects it, and the encoder emits for
it a block with length field 8 and empty payload instead of raising. -/
theorem zero_length_file_resolved_and_encoded (fs : Fs) (dir : String)
    (tag : List Nat) (fn : String)
    (h : fs.lookup (pathJoin dir fn) = some []) :
    resolveTag fs dir tag fn = some [] ∧
    encodeBlock tag [] = some (tag ++ [0, 0, 0, 8]) := by
  constructor
  · unfold resolveTag
    simp [pathExists, h]
  · unfold encodeBlock packBE32
    norm_num

/-- Witness for the amended claim C5 at a concrete zero-length file. -/
theorem zero_length_file_witness :
    resolveTag [("d/icon_16x16.png", [])] "d" [105, 99, 112, 52]
      "icon_16x16.png" = some [] ∧
    encodeBlock [105, 99, 112, 52] [] =
      some ([105, 99, 112, 52] ++ [0, 0, 0, 8]) := by
  exact zero_length_file_resolved_and_encoded
    [("d/icon_16x16.png", [])] "d" [105, 99, 112, 52] "icon_16x16.png" rfl

/-- Counterexample to claim C6: with a source directory that holds no
file at all, the packer still attempts per-tag resolution for every one
of the 11 tags (one warning each) and then exits through the no-entries
error; it does not fail before per-tag resolution, and the result
vocabulary of the program has no separate directory error. -/
theorem missing_directory_warns_counterexample :
    (createIcns [] "d" "o").warnings.length = 11 ∧
    (createIcns [] "d" "o").result = PackResult.noEntries := by
  exact ⟨rfl, rfl⟩

/-- Claim C6 as amended: the packer performs no directory existence or
readability check; when the source directory does not exist (no path
under it resolves), every tag is resolved and missed in turn, a warning
is printed for each of the 11 filenames, and packing fails with exit
code 1 through the same no-entries error, having written nothing. -/
theorem missing_directory_no_entries (fs : Fs) (dir out : String)
    (h : ∀ s : String, fs.lookup (pathJoin dir s) = none) :
    createIcns fs dir out =
      ⟨types.map Prod.snd, PackResult.noEntries, []⟩ ∧
    (types.map Prod.snd).length = 11 ∧
    PackResult.exitCode PackResult.noEntries = 1 := by
  refine ⟨?_, rfl, rfl⟩
  unfold createIcns
  rw [collectBlocksAux_all_missing fs dir types
    (fun e _ => resolveTag_eq_none fs dir e.1 e.2 h)]
  rfl

/-- Witness for the amended claim C6 on the empty filesystem. -/
theorem missing_directory_witness :
    createIcns [] "d" "o" =
      ⟨types.map Prod.snd, PackResult.noEntries, []⟩ ∧
    (types.map Prod.snd).length = 11 ∧
    PackResult.exitCode PackResult.noEntries = 1 := by
  exact missing_directory_no_entries [] "d" "o" (fun s => rfl)

/-- Claim C7: when resolution produces zero blocks, the packer exits with
the no-entries error and exit code 1 before touching the filesystem: its
write trace is empty, so no output file is created and a pre-existing
output file is left unmodified. -/
theorem no_entries_exits_before_write (fs : Fs) (dir out : String)
    (ws : List String)
    (h : collectBlocksAux fs dir types = (ws, some [])) :
    createIcns fs dir out = ⟨ws, PackResult.noEntries, []⟩ ∧
    ((createIcns fs dir out).result).exitCode = 1 ∧
    (createIcns fs dir out).trace = [] := by
  have h1 : createIcns fs dir out = ⟨ws, PackResult.noEntries, []⟩ := by
    unfold createIcns
    rw [h]
    rfl
  exact ⟨h1, by rw [h1]; rfl, by rw [h1]⟩

/-- Witness for claim C7 on the empty filesystem. -/
theorem no_entries_witness :
    createIcns [] "nodir" "prev.icns" =
      ⟨types.map Prod.snd, PackResult.noEntries, []⟩ ∧
    ((createIcns [] "nodir" "prev.icns").result).exitCode = 1 ∧
    (createIcns [] "nodir" "prev.icns").trace = [] := by
  exact no_entries_exits_before_write [] "nodir" "prev.icns"
    (types.map Prod.snd) rfl

/-- Claim C8, evaluated on the code at the failing input: the fallback
assignment for icp4 rebuilds exactly the canonical path icon_16x16.png,
so in a directory holding only a variant file 16x16.png the tag icp4
still resolves to nothing and the run ends in the no-entries error; the
declared fallback can never select a file the canonical lookup missed. -/
theorem fallback_dead_code_eval :
    resolveTag [("d/16x16.png", [1, 2, 3])] "d" tagIcp4 "icon_16x16.png" =
      none ∧
    (createIcns [("d/16x16.png", [1, 2, 3])] "d" "o").result =
      PackResult.noEntries := by
  exact ⟨rfl, rfl⟩

/-- Claim C9: for every invocation of the packer, the tags of the blocks
in the produced container are exactly the tags of the resolved entries of
the fixed table icp4, icp5, icp6, ic07, ic08, ic09, ic10, ic11, ic12,
ic13, ic14, in that order, and no tag contributes more than one block. -/
theorem blocks_in_table_order (fs : Fs) (dir : String) (ws : List String)
    (blocks : List (List Nat))
    (h : collectBlocksAux fs dir types = (ws, some blocks)) :
    blocks.map (fun b => b.take 4) =
      (types.filter fun e => (resolveTag fs dir e.1 e.2).isSome).map
        Prod.fst ∧
    (blocks.map (fun b => b.take 4)).Nodup := by
  have heq := collectBlocksAux_tags fs dir types ws blocks (by decide) h
  refine ⟨heq, ?_⟩
  rw [heq]
  have hsub : List.Sublist ((types.filter fun e =>
      (resolveTag fs dir e.1 e.2).isSome).map Prod.fst)
      (types.map Prod.fst) :=
    List.Sublist.map Prod.fst (List.filter_sublist types)
  exact List.Nodup.sublist hsub (by decide)

/-- Witness for claim C9 on a directory holding the 16x16 and 512x512
files: the container holds the icp4 block then the ic09 block. -/
theorem blocks_in_table_order_witness :
    ([[105, 99, 112, 52, 0, 0, 0, 9, 1],
      [105, 99, 48, 57, 0, 0, 0, 9, 2]].map fun b => List.take 4 b) =
      (types.filter fun e =>
        (resolveTag [("d/icon_16x16.png", [1]), ("d/icon_512x512.png", [2])]
          "d" e.1 e.2).isSome).map Prod.fst ∧
    (([[105, 99, 112, 52, 0, 0, 0, 9, 1],
      [105, 99, 48, 57, 0, 0, 0, 9, 2]] : List (List Nat)).map
        fun b => List.take 4 b).Nodup := by
  exact blocks_in_table_order
    [("d/icon_16x16.png", [1]), ("d/icon_512x512.png", [2])] "d"
    ["icon_32x32.png", "icon_64x64.png", "icon_128x128.png",
     "icon_256x256.png", "icon_1024x1024.png", "icon_16x16@2x.png",
     "icon_32x32@2x.png", "icon_128x128@2x.png", "icon_256x256@2x.png"]
    [[105, 99, 112, 52, 0, 0, 0, 9, 1], [105, 99, 48, 57, 0, 0, 0, 9, 2]]
    rfl

/-- For a tag that is neither icp4 nor icp5 the fallback branch leaves
the path unchanged, so resolution agrees with the no-fallback resolver. -/
theorem resolveTag_eq_noFallback_of_ne (fs : Fs) (dir : String)
    (tag : List Nat) (fn : String) (h4 : tag ≠ tagIcp4)
    (h5 : tag ≠ tagIcp5) :
    resolveTag fs dir tag fn = resolveTagNoFallback fs dir tag fn := by
  unfold resolveTag resolveTagNoFallback
  simp only [if_neg h4, if_neg h5, ite_self]

/-- For icp4 the fallback rebuilds the canonical path icon_16x16.png, so
resolution agrees with the no-fallback resolver. -/
theorem resolveTag_eq_noFallback_icp4 (fs : Fs) (dir : String) :
    resolveTag fs dir tagIcp4 "icon_16x16.png" =
      resolveTagNoFallback fs dir tagIcp4 "icon_16x16.png" := by
  unfold resolveTag resolveTagNoFallback
  have h5 : ¬(tagIcp4 = tagIcp5) := by decide
  simp only [if_pos rfl, if_neg h5, ite_self]

/-- For icp5 the fallback rebuilds the canonical path icon_32x32.png, so
resolution agrees with the no-fallback resolver. -/
theorem resolveTag_eq_noFallback_icp5 (fs : Fs) (dir : String) :
    resolveTag fs dir tagIcp5 "icon_32x32.png" =
      resolveTagNoFallback fs dir tagIcp5 "icon_32x32.png" := by
  unfold resolveTag resolveTagNoFallback
  have h4 : ¬(tagIcp5 = tagIcp4) := by decide
  simp only [if_neg h4, if_pos rfl, ite_self]

/-- Claim C10: the fallback logic never changes which file a tag resolves
to; over the fixed table, for every filesystem and source directory the
resolver produces exactly the same resolved entries as a resolver with no
fallback logic at all. -/
theorem resolver_equals_no_fallback_resolver (fs : Fs) (dir : String) :
    resolvedEntries fs dir = resolvedEntriesNoFallback fs dir := by
  unfold resolvedEntries resolvedEntriesNoFallback
  refine filterMap_congr_mem types _ _ (fun e he => ?_)
  have hres : resolveTag fs dir e.1 e.2 =
      resolveTagNoFallback fs dir e.1 e.2 := by
    fin_cases he
    · exact resolveTag_eq_noFallback_icp4 fs dir
    · exact resolveTag_eq_noFallback_icp5 fs dir
    · exact resolveTag_eq_noFallback_of_ne fs dir _ _ (by decide) (by decide)
    · exact resolveTag_eq_noFallback_of_ne fs dir _ _ (by decide) (by decide)
    · exact resolveTag_eq_noFallback_of_ne fs dir _ _ (by decide) (by decide)
    · exact resolveTag_eq_noFallback_of_ne fs dir _ _ (by decide) (by decide)
    · exact resolveTag_eq_noFallback_of_ne fs dir _ _ (by decide) (by decide)
    · exact resolveTag_eq_noFallback_of_ne fs dir _ _ (by decide) (by decide)
    · exact resolveTag_eq_noFallback_of_ne fs dir _ _ (by decide) (by decide)
    · exact resolveTag_eq_noFallback_of_ne fs dir _ _ (by decide) (by decide)
    · exact resolveTag_eq_noFallback_of_ne fs dir _ _ (by decide) (by decide)
  rw [hres]
